import Mathlib

/-!
Shallow embedding of the fair-playwright reporter core
(`src/core/StepTracker.ts`, `src/core/OutputBuffer.ts`,
`src/formatters/ConsoleFormatter.ts`) and proofs about the spec's claims.

Conventions of the embedding:
* JS strings are Lean `String`; character-level work uses `List Char`.
* `Date.now()` timestamps and durations are `Int` parameters (`now`),
  threaded explicitly into every operation that reads the clock.
* JS `Map` is an association list preserving key-insertion order
  (`Map.set` updates in place or appends, exactly like JS).
* Object references held in several containers are replaced by ids that
  are resolved through the owning map, so a mutation of a record is a
  single functional update of that map.
-/

/-- JS `\s` whitespace class (the ASCII part plus the common Unicode
space characters used by V8). The keyword / marker logic of the source
never depends on the exotic members. -/
def isJsSpace (c : Char) : Bool :=
  c = ' ' || c = '\t' || c = '\n' || c = '\r' || c = '\x0b' || c = '\x0c' ||
  c = '\u00A0' || c = '\uFEFF' || c = '\u2028' || c = '\u2029'

/-- Character-list test used to model `^...` regex anchoring: does `needle`
occur at the head of `hay`? -/
def prefixTest : List Char → List Char → Bool
  | [], _ => true
  | _ :: _, [] => false
  | a :: as, b :: bs => a == b && prefixTest as bs

/-- Model of JS `String.prototype.includes`: does `needle` occur
somewhere in `hay`? -/
def hasSub (needle : List Char) : List Char → Bool
  | [] => needle.isEmpty
  | c :: cs => prefixTest needle (c :: cs) || hasSub needle cs

/-- JS `toLowerCase` restricted to the ASCII range (all keywords of the
source are ASCII, so this is the only part the classifier exercises). -/
def lowerChars (cs : List Char) : List Char := cs.map Char.toLower

/-- Two-tier step importance, `StepLevel` of `src/types/index.ts`. -/
inductive StepLevel
  | major
  | minor
deriving DecidableEq, Repr

/-- Status vocabulary `StepStatus` of `src/types/index.ts`. -/
inductive StepStatus
  | pending
  | running
  | passed
  | failed
  | skipped
deriving DecidableEq, Repr

/-- Stored error of a step (`StepMetadata.error`). -/
structure StepErrorData where
  message : String
  stack : Option String
deriving DecidableEq, Repr

/-- Stored error of a test (`TestMetadata.error`), with a source location. -/
structure TestErrorData where
  message : String
  stack : Option String
  location : String
deriving DecidableEq, Repr

/-- Attachment descriptor collected on test end. -/
structure AttachmentMeta where
  name : String
  path : Option String
  contentType : String
deriving DecidableEq, Repr

/-- A captured console diagnostic (`type` is always `"error"` in the source). -/
structure ConsoleMessage where
  type : String
  message : String
  timestamp : Int
deriving DecidableEq, Repr

/-- Record `StepMetadata` of `src/types/index.ts`; `parentId`/`childIds` refer to
other steps by id. -/
structure StepMetadata where
  id : String
  title : String
  level : StepLevel
  status : StepStatus
  startTime : Int
  endTime : Option Int
  duration : Option Int
  parentId : Option String
  childIds : List String
  error : Option StepErrorData
deriving DecidableEq, Repr

/-- Record `TestMetadata` of `src/types/index.ts`. The source pushes references
to the step records into `steps`; the embedding stores their ids and
resolves them through the registry's step map. -/
structure TestMetadata where
  id : String
  title : String
  file : String
  status : StepStatus
  startTime : Int
  endTime : Option Int
  duration : Option Int
  steps : List String
  attachments : List AttachmentMeta
  error : Option TestErrorData
  consoleErrors : List ConsoleMessage
deriving DecidableEq, Repr

/-- Source location of a Playwright `TestCase`. -/
structure CaseLocation where
  file : String
  line : Int
  column : Int
deriving DecidableEq, Repr

/-- The slice of Playwright's `TestCase` the tracker reads. -/
structure TestCase where
  title : String
  location : CaseLocation
deriving DecidableEq, Repr

/-- Playwright's `TestError` as consumed here: `message`/`stack` may be
absent (`undefined`). -/
structure HostError where
  message : Option String
  stack : Option String
deriving DecidableEq, Repr

/-- The slice of Playwright's `TestStep` the tracker reads. -/
structure TestStep where
  title : String
  error : Option HostError
deriving DecidableEq, Repr

/-- Playwright attachment as consumed on test end. -/
structure HostAttachment where
  name : String
  path : Option String
  contentType : String
deriving DecidableEq, Repr

/-- The slice of Playwright's `TestResult` the tracker reads. `stdout` and
`stderr` are `none` when the host does not provide them (the source
guards `!result.stdout || !result.stderr`; a present-but-empty array is
truthy in JS and is modelled as `some []`). -/
structure TestResult where
  status : String
  duration : Int
  error : Option HostError
  attachments : List HostAttachment
  stdout : Option (List String)
  stderr : Option (List String)
deriving DecidableEq, Repr

/-- The `[MAJOR]`/`[MINOR]` marker characters. -/
def majorMark : List Char := "[MAJOR]".toList

/-- See `majorMark`. -/
def minorMark : List Char := "[MINOR]".toList

/-- Result of matching the regex `^\[(MAJOR|MINOR)\]` against a title:
which explicit level marker, if any, the title starts with. -/
def markerOfTitle (title : List Char) : Option StepLevel :=
  if prefixTest majorMark title then some .major
  else if prefixTest minorMark title then some .minor
  else none

/-- Model of `StepTracker.cleanStepTitle`: `title.replace(/^\[(MAJOR|MINOR)\]\s*/, '')` —
when the marker prefix is present, drop it and the greedy run of
whitespace after it. -/
def cleanStepTitle (title : String) : String :=
  match markerOfTitle title.toList with
  | some _ => String.mk ((title.toList.drop majorMark.length).dropWhile isJsSpace)
  | none => title

/-- The keyword list of `StepTracker.classifyStep`. -/
def majorKeywords : List (List Char) :=
  ["login".toList, "checkout".toList, "payment".toList,
   "register".toList, "setup".toList, "flow".toList]

/-- Model of `StepTracker.classifyStep`: priority 1 the explicit marker, priority 2
a present parent forces MINOR, priority 3 a case-insensitive keyword hit
forces MAJOR, default MINOR. -/
def classifyStep (title : String) (parentStepId : Option String) : StepLevel :=
  match markerOfTitle title.toList with
  | some lvl => lvl
  | none =>
    if parentStepId.isSome then .minor
    else if majorKeywords.any (fun kw => hasSub kw (lowerChars title.toList)) then .major
    else .minor

/-- Model of `StepTracker.mapTestStatus`: total map from the host's status
vocabulary; unknown values fall through to `failed`. -/
def mapTestStatus (status : String) : StepStatus :=
  if status = "passed" then .passed
  else if status = "failed" then .failed
  else if status = "skipped" then .skipped
  else if status = "timedOut" then .failed
  else .failed

/-- JS `Map.get`: the value bound to `k`, scanning in insertion order. -/
def mapGet {V : Type} (m : List (String × V)) (k : String) : Option V :=
  match m with
  | [] => none
  | (k1, v) :: rest => if k = k1 then some v else mapGet rest k

/-- JS `Map.set`: update in place when the key exists (its position is
kept), otherwise append a new binding. -/
def mapSet {V : Type} (m : List (String × V)) (k : String) (v : V) : List (String × V) :=
  if (mapGet m k).isSome then
    m.map (fun p => if p.1 = k then (k, v) else p)
  else
    m ++ [(k, v)]

/-- JS `String.prototype.trim` (both ends, `\s` class). -/
def jsTrim (cs : List Char) : List Char :=
  ((cs.dropWhile isJsSpace).reverse.dropWhile isJsSpace).reverse

/-- Case-insensitive variant of `prefixTest`, for the `/i` regex flag. -/
def ciPrefixTest : List Char → List Char → Bool
  | [], _ => true
  | _ :: _, [] => false
  | a :: as, b :: bs => a.toLower == b.toLower && ciPrefixTest as bs

/-- JS `.` (dot without the `s` flag): anything but a line terminator. -/
def notLineBreak (c : Char) : Bool :=
  !(c = '\n' || c = '\r' || c = '\u2028' || c = '\u2029')

/-- One `matchAll` pass of the regex `<lit>\s*(.+)` with flags `gi` over
`cs`, returning the captures in order. `\s*` is greedy; when the rest of
the line is pure whitespace the engine backtracks into the trailing
non-line-break whitespace so that `(.+)` can still match it. The list
argument shrinks by at least one character per recursion; `fuel` (started
at the input length) makes that structural. -/
def scanCapturesAux (lit : List Char) : Nat → List Char → List (List Char)
  | 0, _ => []
  | _, [] => []
  | fuel + 1, c :: cs =>
    if lit.isEmpty then []
    else if ciPrefixTest lit (c :: cs) then
      let afterLit := (c :: cs).drop lit.length
      let ws := afterLit.takeWhile isJsSpace
      let tl := afterLit.drop ws.length
      let line := tl.takeWhile notLineBreak
      if line.isEmpty then
        let back := (ws.reverse.takeWhile notLineBreak).reverse
        if back.isEmpty then scanCapturesAux lit fuel cs
        else back :: scanCapturesAux lit fuel tl
      else
        line :: scanCapturesAux lit fuel (tl.drop line.length)
    else scanCapturesAux lit fuel cs

/-- See `scanCapturesAux`. -/
def scanCaptures (lit : List Char) (cs : List Char) : List (List Char) :=
  scanCapturesAux lit cs.length cs

/-- The three console-error patterns of
`StepTracker.extractConsoleErrors`, as their literal heads (each regex is
`<literal>\s*(.+)` with flags `gi`). -/
def errorPatternLits : List (List Char) :=
  ["console.error:".toList, "[error]".toList, "ERROR:".toList]

/-- Model of `StepTracker.extractConsoleErrors` on the joined
`stdout.join('\n') + '\n' + stderr.join('\n')` output: every capture of
every pattern, trimmed, becomes an `error` console message stamped `now`. -/
def extractedConsoleErrors (output : String) (now : Int) : List ConsoleMessage :=
  (errorPatternLits.map (fun lit =>
      (scanCaptures lit output.toList).map (fun cap =>
        { type := "error", message := String.mk (jsTrim cap), timestamp := now }))).flatten

/-- The whole `StepTracker` object: the two registries plus the injected
classification configuration. -/
structure StepTracker where
  tests : List (String × TestMetadata)
  steps : List (String × StepMetadata)
  durationThreshold : Int
  autoDetect : Bool
deriving DecidableEq, Repr

/-- Constructor `new StepTracker(options)` with both options given (the source
defaults them to `1000` and `true`). -/
def StepTracker.make (durationThreshold : Int) (autoDetect : Bool) : StepTracker :=
  { tests := [], steps := [], durationThreshold := durationThreshold, autoDetect := autoDetect }

/-- Model of `StepTracker.getTestId`. -/
def getTestId (tc : TestCase) : String :=
  tc.location.file ++ "::" ++ tc.title

/-- Model of `StepTracker.getStepId`; the `Date.now()` component is the explicit
`now` argument. -/
def getStepId (tc : TestCase) (s : TestStep) (now : Int) : String :=
  getTestId tc ++ "::" ++ s.title ++ "::" ++ toString now

/-- Model of `StepTracker.startTest`, returning the new state and the test id. -/
def startTest (st : StepTracker) (tc : TestCase) (now : Int) : StepTracker × String :=
  let testId := getTestId tc
  let t : TestMetadata :=
    { id := testId, title := tc.title, file := tc.location.file, status := .running,
      startTime := now, endTime := none, duration := none, steps := [],
      attachments := [], error := none, consoleErrors := [] }
  ({ st with tests := mapSet st.tests testId t }, testId)

/-- Model of `StepTracker.startStep`, returning the new state and the step id:
create the classified record, register it, append its id to the parent's
`childIds` when the parent exists, and append it to the owning test's
step list. -/
def startStep (st : StepTracker) (tc : TestCase) (s : TestStep)
    (parentStepId : Option String) (now : Int) : StepTracker × String :=
  let testId := getTestId tc
  let stepId := getStepId tc s now
  let meta : StepMetadata :=
    { id := stepId, title := cleanStepTitle s.title,
      level := classifyStep s.title parentStepId, status := .running,
      startTime := now, endTime := none, duration := none,
      parentId := parentStepId, childIds := [], error := none }
  let steps1 := mapSet st.steps stepId meta
  let steps2 :=
    match parentStepId with
    | some p =>
      match mapGet steps1 p with
      | some parent => mapSet steps1 p { parent with childIds := parent.childIds ++ [stepId] }
      | none => steps1
    | none => steps1
  let tests1 :=
    match mapGet st.tests testId with
    | some t => mapSet st.tests testId { t with steps := t.steps ++ [stepId] }
    | none => st.tests
  ({ st with tests := tests1, steps := steps2 }, stepId)

/-- The record mutation performed by `StepTracker.endStep` on a found
step: finalize `endTime`/`duration`/`status`/`error` and, when
auto-detect is on and the duration exceeds the threshold, upgrade the
level to MAJOR. -/
def endStepRecord (m : StepMetadata) (s : TestStep) (autoDetect : Bool)
    (durationThreshold : Int) (now : Int) : StepMetadata :=
  let duration := now - m.startTime
  let m1 : StepMetadata :=
    { m with
      endTime := some now
      duration := some duration
      status := if s.error.isSome then .failed else .passed
      error :=
        match s.error with
        | some e => some { message := e.message.getD "Unknown error", stack := e.stack }
        | none => m.error }
  if autoDetect && decide (duration > durationThreshold) then
    { m1 with level := .major }
  else m1

/-- Model of `StepTracker.endStep`: unknown ids are ignored; otherwise apply
`endStepRecord` to the found record. -/
def endStep (st : StepTracker) (s : TestStep) (stepId : String) (now : Int) : StepTracker :=
  match mapGet st.steps stepId with
  | none => st
  | some m =>
    { st with
      steps := mapSet st.steps stepId (endStepRecord m s st.autoDetect st.durationThreshold now) }

/-- Model of `StepTracker.endTest`: unknown ids are ignored; otherwise finalize the
test record, map the host status totally, collect attachments and extract
console errors from the joined output. -/
def endTest (st : StepTracker) (tc : TestCase) (r : TestResult) (now : Int) : StepTracker :=
  let testId := getTestId tc
  match mapGet st.tests testId with
  | none => st
  | some t =>
    let t1 : TestMetadata :=
      { t with
        endTime := some now
        duration := some r.duration
        status := mapTestStatus r.status
        error :=
          match r.error with
          | some e =>
            some { message := e.message.getD "Unknown error", stack := e.stack,
                   location := tc.location.file ++ ":" ++ toString tc.location.line
                     ++ ":" ++ toString tc.location.column }
          | none => t.error
        attachments := r.attachments.map (fun a =>
          { name := a.name, path := a.path, contentType := a.contentType }) }
    let t2 :=
      match r.stdout, r.stderr with
      | some out, some err =>
        let output := String.intercalate "\n" out ++ "\n" ++ String.intercalate "\n" err
        { t1 with consoleErrors := t1.consoleErrors ++ extractedConsoleErrors output now }
      | _, _ => t1
    { st with tests := mapSet st.tests testId t2 }

/-- Model of `StepTracker.getStep`. -/
def getStep (st : StepTracker) (stepId : String) : Option StepMetadata :=
  mapGet st.steps stepId

/-- Model of `StepTracker.getTest`. -/
def getTest (st : StepTracker) (testId : String) : Option TestMetadata :=
  mapGet st.tests testId

/-- Model of `StepTracker.getAllTests` (insertion order of the map). -/
def getAllTrackedTests (st : StepTracker) : List TestMetadata :=
  st.tests.map (fun p => p.2)

/-- A buffered snapshot: a test or a step record
(`BufferEntry` of `src/core/OutputBuffer.ts`). -/
inductive EntryData
  | test (t : TestMetadata)
  | step (s : StepMetadata)
deriving DecidableEq, Repr

/-- Entry wrapper `BufferEntry`: the snapshot plus its insertion timestamp and the
owning worker id. -/
structure BufferEntry where
  data : EntryData
  timestamp : Int
  workerId : Option String
deriving DecidableEq, Repr

/-- The `OutputBuffer` object: per-worker entry lists keyed by worker id
(`'default'` when absent), plus the configuration. -/
structure OutputBuffer where
  buffers : List (String × List BufferEntry)
  maxBufferSize : Int
  compressPassedTests : Bool
deriving DecidableEq, Repr

/-- Constructor `new OutputBuffer(options)` with both options given (the source
defaults them to `1000` and `true`). -/
def OutputBuffer.make (maxBufferSize : Int) (compressPassedTests : Bool) : OutputBuffer :=
  { buffers := [], maxBufferSize := maxBufferSize, compressPassedTests := compressPassedTests }

/-- The eviction scan candidate test of `removeOldestPassedTest`: entries
of kind test whose record status is `passed`. -/
def isPassedTestEntry (e : BufferEntry) : Bool :=
  match e.data with
  | .test t => t.status = .passed
  | .step _ => false

/-- A buffered failed test (used to state what eviction may not touch). -/
def isFailedTestEntry (e : BufferEntry) : Bool :=
  match e.data with
  | .test t => t.status = .failed
  | .step _ => false

/-- The scan loop of `OutputBuffer.removeOldestPassedTest`: walk the
entries at increasing indices starting from `i`, keeping the index and
timestamp of the oldest passed test seen so far (`none` plays the role of
`oldestIndex = -1` / `oldestTimestamp = Infinity`; the strict `<` keeps
the first index among equal timestamps). -/
def olderPassed (e : BufferEntry) (acc : Option (Nat × Int)) : Bool :=
  isPassedTestEntry e &&
    (match acc with
     | none => true
     | some (_, ts) => decide (e.timestamp < ts))

def scanOldestPassed : List BufferEntry → Nat → Option (Nat × Int) → Option (Nat × Int)
  | [], _, acc => acc
  | e :: rest, i, acc =>
    scanOldestPassed rest (i + 1) (if olderPassed e acc then some (i, e.timestamp) else acc)

/-- Model of `OutputBuffer.removeOldestPassedTest` on one worker's entry list:
evict the oldest passed test if the scan found one, otherwise shift the
first entry (FIFO fallback; an empty list stays empty). -/
def removeOldestPassedTest (buffer : List BufferEntry) : List BufferEntry :=
  match scanOldestPassed buffer 0 none with
  | some (i, _) => buffer.eraseIdx i
  | none => buffer.tail

/-- Shared body of `addTest`/`addStep`: resolve the worker key, evict when
the buffer is at (or beyond) capacity, then push the new entry. -/
def addEntry (buf : OutputBuffer) (key : String) (e : BufferEntry) : OutputBuffer :=
  let base := (mapGet buf.buffers key).getD []
  let b1 := if decide ((base.length : Int) ≥ buf.maxBufferSize) then
              removeOldestPassedTest base
            else base
  { buf with buffers := mapSet buf.buffers key (b1 ++ [e]) }

/-- Model of `OutputBuffer.addTest`; the insertion timestamp `Date.now()` is the
explicit `now`. -/
def addTest (buf : OutputBuffer) (t : TestMetadata) (workerId : Option String)
    (now : Int) : OutputBuffer :=
  addEntry buf (workerId.getD "default") { data := .test t, timestamp := now, workerId := workerId }

/-- Model of `OutputBuffer.addStep`. -/
def addStep (buf : OutputBuffer) (s : StepMetadata) (workerId : Option String)
    (now : Int) : OutputBuffer :=
  addEntry buf (workerId.getD "default") { data := .step s, timestamp := now, workerId := workerId }

/-- The test records of one worker's entry list, in buffer order. -/
def testsOfBuffer (buffer : List BufferEntry) : List TestMetadata :=
  buffer.filterMap (fun e => match e.data with | .test t => some t | .step _ => none)

/-- Model of `OutputBuffer.getAllTests`: concatenate every worker's tests, workers
in map (first-use) order. -/
def getAllTests (buf : OutputBuffer) : List TestMetadata :=
  (buf.buffers.map (fun p => testsOfBuffer p.2)).flatten

/-- Stable insertion into a list sorted ascending by `startTime`: walk
past strictly earlier entries, so an inserted element lands before every
element with an equal or later `startTime`. -/
def insertByStartTime (x : TestMetadata) : List TestMetadata → List TestMetadata
  | [] => [x]
  | y :: ys =>
    if decide (y.startTime < x.startTime) then y :: insertByStartTime x ys
    else x :: y :: ys

/-- Stable ascending sort by `startTime`. `Array.prototype.sort` with the
comparator `(a, b) => a.startTime - b.startTime` is exactly the stable
ascending sort by `startTime` (ECMAScript requires sort stability); every
stable ascending sort computes the same list, and this structurally
recursive insertion sort is the executable model of it. -/
def sortByStartTime : List TestMetadata → List TestMetadata
  | [] => []
  | x :: xs => insertByStartTime x (sortByStartTime xs)

/-- Model of `OutputBuffer.mergeWorkerBuffers`: flatten all workers and sort the
tests ascending by `startTime`. -/
def mergeWorkerBuffers (buf : OutputBuffer) : List TestMetadata :=
  sortByStartTime (getAllTests buf)

/-- What the formatter emits on the terminal, at the granularity the
run-end claims are about: clearing the live (log-update) area, a plain
line, or the final summary block of `ConsoleFormatter.onEnd` (separator,
failed/passed/skipped tallies, total and duration — one synchronous
draw). -/
inductive Frame
  | clearLiveArea
  | line (s : String)
  | summaryDraw (failed passed skipped : Nat) (total : Nat) (totalDuration : Int)
deriving DecidableEq, Repr

/-- The slice of `ConsoleFormatter` state the run-end behaviour reads:
the mode decision made in the constructor and whether a debounced
re-render timer is currently pending. `clearTimeout` only cancels the
pending fire; the source keeps the stale handle around, which the
`Bool` does not need to represent. -/
structure ConsoleFormatterState where
  useProgressiveMode : Bool
  timerPending : Bool
deriving DecidableEq, Repr

/-- Model of `ConsoleFormatter.scheduleUpdate`: progressive mode arms (or re-arms,
debouncing) the one-shot render timer; other modes do nothing. -/
def scheduleUpdate (st : ConsoleFormatterState) : ConsoleFormatterState :=
  if st.useProgressiveMode then { st with timerPending := true } else st

/-- Model of `ConsoleFormatter.onEnd`: in progressive mode clear the live area and
cancel any pending timer; then unconditionally print the final summary
block. Every invocation emits the summary — there is no idempotence
guard. -/
def formatterOnEnd (st : ConsoleFormatterState) (allTests : List TestMetadata) :
    ConsoleFormatterState × List Frame :=
  let (st1, pre) :=
    if st.useProgressiveMode then
      ({ st with timerPending := false }, [Frame.clearLiveArea])
    else (st, [])
  let passed := (allTests.filter (fun t => t.status = .passed)).length
  let failed := (allTests.filter (fun t => t.status = .failed)).length
  let skipped := (allTests.filter (fun t => t.status = .skipped)).length
  let totalDuration := allTests.foldl (fun sum t => sum + t.duration.getD 0) 0
  (st1, pre ++ [Frame.summaryDraw failed passed skipped allTests.length totalDuration])

/-- Is a frame the final summary draw? -/
def isSummaryFrame : Frame → Bool
  | .summaryDraw _ _ _ _ _ => true
  | _ => false

/-- A step-registry operation of the ingress contract: a `BeginStep`
(with the owning test case, the host step, the optional parent id and the
clock) or an `EndStep` (with the host step carrying the outcome, the step
id and the clock). -/
inductive TrackerOp
  | stepBegin (tc : TestCase) (s : TestStep) (parentStepId : Option String) (now : Int)
  | stepEnd (s : TestStep) (stepId : String) (now : Int)
deriving DecidableEq, Repr

/-- Apply one registry operation. -/
def applyTrackerOp (st : StepTracker) : TrackerOp → StepTracker
  | .stepBegin tc s parentStepId now => (startStep st tc s parentStepId now).1
  | .stepEnd s stepId now => endStep st s stepId now

/-- Run a sequence of registry operations. -/
def runTracker (st : StepTracker) (ops : List TrackerOp) : StepTracker :=
  ops.foldl applyTrackerOp st

/-- A `BeginStep` is fresh in a state when the id it generates is not
registered yet. The source builds step ids from the test id, the step
title and `Date.now()` precisely so that every occurrence gets a fresh
id; this predicate states that the trace respects that intent. -/
def opFresh (st : StepTracker) : TrackerOp → Bool
  | .stepBegin tc s _ now => (mapGet st.steps (getStepId tc s now)).isNone
  | .stepEnd _ _ _ => true

/-- Every `BeginStep` of the trace is fresh in the state it is applied to. -/
def traceFresh (st : StepTracker) : List TrackerOp → Bool
  | [] => true
  | op :: rest => opFresh st op && traceFresh (applyTrackerOp st op) rest

/-- Does the operation end the step with the given id? -/
def isStepEndOf (id : String) : TrackerOp → Bool
  | .stepEnd _ stepId _ => stepId = id
  | .stepBegin _ _ _ _ => false

/-- A buffer operation: an `addTest` or `addStep` call with its worker
and clock. -/
inductive BufOp
  | addT (t : TestMetadata) (workerId : Option String) (now : Int)
  | addS (s : StepMetadata) (workerId : Option String) (now : Int)
deriving DecidableEq, Repr

/-- Apply one buffer operation. -/
def applyBufOp (buf : OutputBuffer) : BufOp → OutputBuffer
  | .addT t w now => addTest buf t w now
  | .addS s w now => addStep buf s w now

/-- Run a sequence of buffer operations. -/
def runBuffer (buf : OutputBuffer) (ops : List BufOp) : OutputBuffer :=
  ops.foldl applyBufOp buf

/-- The capacity invariant: every worker's buffer holds at most
`maxBufferSize` entries. -/
def sizesWithinCapacity (buf : OutputBuffer) : Prop :=
  ∀ p ∈ buf.buffers, ((p.2.length : Int)) ≤ buf.maxBufferSize

instance (buf : OutputBuffer) : Decidable (sizesWithinCapacity buf) := by
  unfold sizesWithinCapacity
  infer_instance

/-! ## Claim-side (spec-worded) definitions, for refinement statements -/

/-- The creation-time classification as the spec states it, written with
the library's prefix/infix predicates (independently of the source-side
`prefixTest`/`hasSub`): (1) an explicit marker wins, (2) a present parent
means MINOR, (3) a case-insensitive keyword hit means MAJOR, (4) default
MINOR. -/
def claimStepLevel (title : String) (parentStepId : Option String) : StepLevel :=
  if majorMark.isPrefixOf title.toList then .major
  else if minorMark.isPrefixOf title.toList then .minor
  else if parentStepId.isSome then .minor
  else if majorKeywords.any (fun kw => decide (kw <:+: lowerChars title.toList)) then .major
  else .minor

/-- The stored title as the spec states it: the explicit marker (and the
whitespace run following it) stripped, other titles untouched. -/
def claimStrippedTitle (title : String) : String :=
  if majorMark.isPrefixOf title.toList || minorMark.isPrefixOf title.toList then
    String.mk ((title.toList.drop majorMark.length).dropWhile isJsSpace)
  else title

/-! ## Concrete sample data used by counterexamples and witnesses -/

/-- A concrete test case at a fixed location. -/
def sampleCase : TestCase :=
  { title := "test1", location := { file := "test.spec.ts", line := 1, column := 1 } }

/-- A host step with a given title and no error. -/
def stepTitled (title : String) : TestStep :=
  { title := title, error := none }

/-- A tracker with the source's default configuration
(`durationThreshold = 1000`, `autoDetect = true`). -/
def defaultTracker : StepTracker := StepTracker.make 1000 true

/-- A minimal test record with the given id, status and start time. -/
def sampleTest (id : String) (status : StepStatus) (startTime : Int) : TestMetadata :=
  { id := id, title := id, file := "test.spec.ts", status := status,
    startTime := startTime, endTime := none, duration := none, steps := [],
    attachments := [], error := none, consoleErrors := [] }

/-- A minimal finished (passed) step record. -/
def sampleStepMeta (id : String) : StepMetadata :=
  { id := id, title := id, level := .minor, status := .passed, startTime := 0,
    endTime := none, duration := none, parentId := none, childIds := [], error := none }

/-- A placeholder entry for positional (`getD`) access. -/
def blankEntry : BufferEntry :=
  { data := .step (sampleStepMeta "blank"), timestamp := 0, workerId := none }

/-- A buffer at capacity 2 holding a passed step (inserted at time 1) and
then a passed test `X` (inserted at time 2), built through the public
`addStep`/`addTest` calls. -/
def evictionProbe : OutputBuffer :=
  addTest (addStep (OutputBuffer.make 2 true) (sampleStepMeta "s1") none 1)
    (sampleTest "X" .passed 10) none 2

/-- Three tests with equal `startTime`, added in the order `X`, `Y`, `Z`
but with `X` and `Z` on worker `b` and `Y` on worker `a`. -/
def mergeProbe : OutputBuffer :=
  addTest
    (addTest
      (addTest (OutputBuffer.make 1000 true) (sampleTest "X" .passed 100) (some "b") 1)
      (sampleTest "Y" .passed 100) (some "a") 2)
    (sampleTest "Z" .passed 100) (some "b") 3

/-- A progressive-mode formatter with a render timer pending. -/
def fmtProbe : ConsoleFormatterState :=
  { useProgressiveMode := true, timerPending := true }

/-! ## Lemmas about the JS `Map` model -/

theorem mapGet_mem {V : Type} {m : List (String × V)} {k : String} {v : V}
    (h : mapGet m k = some v) : (k, v) ∈ m := by
  induction m with
  | nil => simp [mapGet] at h
  | cons p rest ih =>
    obtain ⟨pk, pv⟩ := p
    rw [mapGet] at h
    by_cases hk : k = pk
    · rw [if_pos hk] at h
      simp only [Option.some.injEq] at h
      subst hk
      subst h
      exact List.mem_cons_self _ _
    · rw [if_neg hk] at h
      exact List.mem_cons_of_mem _ (ih h)

theorem mapGet_append {V : Type} (m l : List (String × V)) (a : String) :
    mapGet (m ++ l) a = ((mapGet m a).orElse (fun _ => mapGet l a)) := by
  induction m with
  | nil => simp [mapGet]
  | cons p rest ih =>
    obtain ⟨pk, pv⟩ := p
    rw [List.cons_append, mapGet, mapGet]
    by_cases hb : a = pk
    · rw [if_pos hb, if_pos hb]
      rfl
    · rw [if_neg hb, if_neg hb]
      exact ih

theorem mapGet_map_setKey {V : Type} (m : List (String × V)) (k k' : String) (v : V)
    (h : k' ≠ k) :
    mapGet (m.map (fun p => if p.1 = k then (k, v) else p)) k' = mapGet m k' := by
  induction m with
  | nil => simp [mapGet]
  | cons q rest ih =>
    obtain ⟨qk, qv⟩ := q
    by_cases hqk : qk = k
    · subst hqk
      rw [List.map_cons, if_pos rfl, mapGet, mapGet, if_neg h, if_neg h]
      exact ih
    · rw [List.map_cons, if_neg hqk, mapGet, mapGet]
      by_cases hb : k' = qk
      · rw [if_pos hb, if_pos hb]
      · rw [if_neg hb, if_neg hb]
        exact ih

theorem mapGet_map_setKey_self {V : Type} (m : List (String × V)) (k : String) (v : V)
    (hs : (mapGet m k).isSome) :
    mapGet (m.map (fun p => if p.1 = k then (k, v) else p)) k = some v := by
  induction m with
  | nil => simp [mapGet] at hs
  | cons q rest ih =>
    obtain ⟨qk, qv⟩ := q
    by_cases hqk : qk = k
    · subst hqk
      rw [List.map_cons, if_pos rfl, mapGet, if_pos rfl]
    · rw [mapGet, if_neg (fun hh => hqk hh.symm)] at hs
      rw [List.map_cons, if_neg hqk, mapGet, if_neg (fun hh => hqk hh.symm)]
      exact ih hs

theorem mapGet_mapSet_self {V : Type} (m : List (String × V)) (k : String) (v : V) :
    mapGet (mapSet m k v) k = some v := by
  unfold mapSet
  by_cases hs : (mapGet m k).isSome
  · rw [if_pos hs]
    exact mapGet_map_setKey_self m k v hs
  · rw [if_neg hs]
    have hnone : mapGet m k = none := Option.not_isSome_iff_eq_none.mp hs
    rw [mapGet_append, hnone, mapGet, if_pos rfl]
    rfl

theorem mapGet_mapSet_ne {V : Type} (m : List (String × V)) (k k' : String) (v : V)
    (h : k' ≠ k) : mapGet (mapSet m k v) k' = mapGet m k' := by
  unfold mapSet
  by_cases hs : (mapGet m k).isSome
  · rw [if_pos hs]
    exact mapGet_map_setKey m k k' v h
  · rw [if_neg hs]
    rw [mapGet_append, mapGet, if_neg h]
    cases mapGet m k' with
    | none => rfl
    | some w => rfl

theorem mem_mapSet {V : Type} {m : List (String × V)} {k : String} {v : V} {p : String × V}
    (h : p ∈ mapSet m k v) : p = (k, v) ∨ p ∈ m := by
  unfold mapSet at h
  by_cases hs : (mapGet m k).isSome
  · rw [if_pos hs] at h
    obtain ⟨q, hq, hfq⟩ := List.mem_map.mp h
    by_cases hqk : q.1 = k
    · rw [if_pos hqk] at hfq
      exact Or.inl hfq.symm
    · rw [if_neg hqk] at hfq
      exact Or.inr (hfq ▸ hq)
  · rw [if_neg hs] at h
    rcases List.mem_append.mp h with hm | hm
    · exact Or.inr hm
    · simp at hm
      exact Or.inl (by simp [hm])

/-! ## Lemmas about the step registry -/

theorem getStep_startStep (st : StepTracker) (tc : TestCase) (s : TestStep)
    (parentStepId : Option String) (t0 : Int) :
    ∃ cids, getStep (startStep st tc s parentStepId t0).1 (startStep st tc s parentStepId t0).2 =
      some { id := getStepId tc s t0, title := cleanStepTitle s.title,
             level := classifyStep s.title parentStepId, status := .running,
             startTime := t0, endTime := none, duration := none,
             parentId := parentStepId, childIds := cids, error := none } := by
  unfold startStep getStep
  simp only
  set sid := getStepId tc s t0 with hsid
  set meta : StepMetadata :=
    { id := sid, title := cleanStepTitle s.title,
      level := classifyStep s.title parentStepId, status := .running,
      startTime := t0, endTime := none, duration := none,
      parentId := parentStepId, childIds := [], error := none } with hmeta
  have hself : mapGet (mapSet st.steps sid meta) sid = some meta :=
    mapGet_mapSet_self _ _ _
  cases parentStepId with
  | none =>
    exact ⟨[], hself⟩
  | some p =>
    simp only
    cases hp : mapGet (mapSet st.steps sid meta) p with
    | none => exact ⟨[], hself⟩
    | some parent =>
      by_cases hps : p = sid
      · subst hps
        rw [hself] at hp
        obtain rfl : parent = meta := by simpa using hp.symm
        refine ⟨meta.childIds ++ [sid], ?_⟩
        exact mapGet_mapSet_self _ _ _
      · refine ⟨[], ?_⟩
        rw [mapGet_mapSet_ne _ _ _ _ (fun hh => hps hh.symm)]
        exact hself

theorem getStep_endStep (st : StepTracker) (s : TestStep) (stepId : String) (now : Int)
    (m : StepMetadata) (hm : getStep st stepId = some m) :
    getStep (endStep st s stepId now) stepId =
      some (endStepRecord m s st.autoDetect st.durationThreshold now) := by
  unfold getStep at hm ⊢
  unfold endStep
  rw [hm]
  exact mapGet_mapSet_self _ _ _

theorem endStep_unknown (st : StepTracker) (s : TestStep) (stepId : String) (now : Int)
    (h : mapGet st.steps stepId = none) : endStep st s stepId now = st := by
  unfold endStep
  rw [h]

theorem endTest_unknown (st : StepTracker) (tc : TestCase) (r : TestResult) (now : Int)
    (h : mapGet st.tests (getTestId tc) = none) : endTest st tc r now = st := by
  unfold endTest
  simp only
  rw [h]

/-! ## Bridges between the source-side scanners and library predicates -/

theorem prefixTest_eq_isPrefixOf (n h : List Char) : prefixTest n h = n.isPrefixOf h := by
  induction n generalizing h with
  | nil => simp [prefixTest]
  | cons a as ih =>
    cases h with
    | nil => simp [prefixTest]
    | cons b bs => rw [prefixTest, List.isPrefixOf_cons₂, ih]

theorem hasSub_iff (needle hay : List Char) : hasSub needle hay = true ↔ needle <:+: hay := by
  induction hay with
  | nil =>
    rw [hasSub]
    simp [List.isEmpty_iff]
  | cons c cs ih =>
    rw [hasSub]
    simp only [Bool.or_eq_true]
    rw [prefixTest_eq_isPrefixOf, List.isPrefixOf_iff_prefix, ih, List.infix_cons_iff]

theorem classifyStep_eq_claim (title : String) (parentStepId : Option String) :
    classifyStep title parentStepId = claimStepLevel title parentStepId := by
  have hkw : (fun kw => hasSub kw (lowerChars title.toList))
      = (fun kw => decide (kw <:+: lowerChars title.toList)) := by
    funext kw
    cases hb : hasSub kw (lowerChars title.toList) with
    | true =>
      have hinf := (hasSub_iff _ _).mp hb
      exact (decide_eq_true hinf).symm
    | false =>
      have hninf : ¬ (kw <:+: lowerChars title.toList) := fun hh => by
        have h2 := (hasSub_iff _ _).mpr hh
        rw [hb] at h2
        exact Bool.noConfusion h2
      exact (decide_eq_false hninf).symm
  unfold classifyStep claimStepLevel markerOfTitle
  rw [prefixTest_eq_isPrefixOf, prefixTest_eq_isPrefixOf, hkw]
  cases h1 : majorMark.isPrefixOf title.toList with
  | true => simp
  | false =>
    cases h2 : minorMark.isPrefixOf title.toList with
    | true => simp
    | false => simp

theorem cleanStepTitle_eq_claim (title : String) :
    cleanStepTitle title = claimStrippedTitle title := by
  unfold cleanStepTitle claimStrippedTitle markerOfTitle
  rw [prefixTest_eq_isPrefixOf, prefixTest_eq_isPrefixOf]
  cases h1 : majorMark.isPrefixOf title.toList with
  | true => simp
  | false =>
    cases h2 : minorMark.isPrefixOf title.toList with
    | true => simp
    | false => simp

/-! ## Properties of the step-end record transform -/

theorem endStepRecord_level (m : StepMetadata) (s : TestStep) (ad : Bool) (th now : Int) :
    (endStepRecord m s ad th now).level =
      if ad = true ∧ th < now - m.startTime then .major else m.level := by
  unfold endStepRecord
  by_cases had : ad = true
  · by_cases hth : th < now - m.startTime
    · simp [had, hth]
    · simp [had, hth]
  · simp [had]

theorem endStepRecord_status (m : StepMetadata) (s : TestStep) (ad : Bool) (th now : Int) :
    (endStepRecord m s ad th now).status = if s.error.isSome then .failed else .passed := by
  unfold endStepRecord
  by_cases h : ad && decide (now - m.startTime > th)
  · simp [h]
  · simp [h]

theorem endStepRecord_endTime (m : StepMetadata) (s : TestStep) (ad : Bool) (th now : Int) :
    (endStepRecord m s ad th now).endTime = some now := by
  unfold endStepRecord
  by_cases h : ad && decide (now - m.startTime > th)
  · simp [h]
  · simp [h]

/-! ## Claim theorems: step classification -/

/-- C1 counterexample. The claim says a `[MINOR]`-marked step whose
duration exceeds the threshold still ends MINOR; on the code, a
`[MINOR]`-marked step started at 0 and ended at 2000 under the default
configuration (threshold 1000, auto-detect on) ends with level MAJOR,
because the duration upgrade of `endStep` ignores the explicit marker. -/
theorem markedMinorLongStep_endsMajor :
    markerOfTitle ("[MINOR] Click button").toList = some .minor ∧
    (getStep
        (endStep (startStep defaultTracker sampleCase (stepTitled "[MINOR] Click button") none 0).1
          (stepTitled "[MINOR] Click button")
          (startStep defaultTracker sampleCase (stepTitled "[MINOR] Click button") none 0).2 2000)
        (startStep defaultTracker sampleCase (stepTitled "[MINOR] Click button") none 0).2).map
      (fun m => m.level) = some .major := by
  constructor
  · decide
  · decide

/-- C1 (amended): for a step whose title carries an explicit marker, the
final level after `endStep` equals the marked level unless auto-detect is
enabled and the duration exceeds the threshold, in which case it is
MAJOR; in particular a `[MAJOR]` marker is always preserved. -/
theorem markedStep_finalLevel (st : StepTracker) (tc : TestCase) (s sEnd : TestStep)
    (parentStepId : Option String) (t0 t1 : Int) (lvl : StepLevel)
    (hmark : markerOfTitle s.title.toList = some lvl) :
    (getStep
        (endStep (startStep st tc s parentStepId t0).1 sEnd
          (startStep st tc s parentStepId t0).2 t1)
        (startStep st tc s parentStepId t0).2).map (fun m => m.level)
      = some (if lvl = .major ∨ (st.autoDetect = true ∧ st.durationThreshold < t1 - t0)
              then .major else lvl) := by
  obtain ⟨cids, hc⟩ := getStep_startStep st tc s parentStepId t0
  rw [getStep_endStep _ sEnd _ t1 _ hc]
  have hAD : (startStep st tc s parentStepId t0).1.autoDetect = st.autoDetect := rfl
  have hTH : (startStep st tc s parentStepId t0).1.durationThreshold = st.durationThreshold := rfl
  rw [hAD, hTH]
  have hcl : classifyStep s.title parentStepId = lvl := by
    unfold classifyStep
    rw [hmark]
  rw [Option.map_some']
  rw [endStepRecord_level]
  simp only
  rw [hcl]
  cases lvl with
  | major =>
    by_cases hC : st.autoDetect = true ∧ st.durationThreshold < t1 - t0
    · simp [hC]
    · simp [hC]
  | minor =>
    by_cases hC : st.autoDetect = true ∧ st.durationThreshold < t1 - t0
    · simp [hC]
    · simp [hC]

/-- C1 witness: a `[MAJOR]`-marked step that ran 0ms still ends MAJOR. -/
theorem markedStep_finalLevel_witness :
    markerOfTitle ("[MAJOR] pay").toList = some StepLevel.major ∧
    (getStep
        (endStep (startStep defaultTracker sampleCase (stepTitled "[MAJOR] pay") none 0).1
          (stepTitled "[MAJOR] pay")
          (startStep defaultTracker sampleCase (stepTitled "[MAJOR] pay") none 0).2 0)
        (startStep defaultTracker sampleCase (stepTitled "[MAJOR] pay") none 0).2).map
      (fun m => m.level)
      = some (if StepLevel.major = .major ∨
                ((defaultTracker).autoDetect = true ∧ (defaultTracker).durationThreshold < 0 - 0)
              then .major else StepLevel.major) :=
  ⟨by decide,
   markedStep_finalLevel defaultTracker sampleCase (stepTitled "[MAJOR] pay")
     (stepTitled "[MAJOR] pay") none 0 0 .major (by decide)⟩

/-- C2 (confirmed): at creation the stored step record's level follows the
claim's priority order — explicit marker, then parent-forces-MINOR, then
the case-insensitive keyword set, default MINOR — and the stored title has
the marker stripped. -/
theorem stepCreation_classification (st : StepTracker) (tc : TestCase) (s : TestStep)
    (parentStepId : Option String) (t0 : Int) :
    (getStep (startStep st tc s parentStepId t0).1 (startStep st tc s parentStepId t0).2).map
        (fun m => (m.level, m.title))
      = some (claimStepLevel s.title parentStepId, claimStrippedTitle s.title) := by
  obtain ⟨cids, hc⟩ := getStep_startStep st tc s parentStepId t0
  rw [hc, Option.map_some']
  simp only
  rw [classifyStep_eq_claim, cleanStepTitle_eq_claim]

/-- C3 (confirmed): for a step without an explicit marker, the final level
after `endStep` is MAJOR when auto-detect is on and the duration exceeds
the threshold (independently of the parent — a nested long step also
escalates), and otherwise it is the creation-time level: MINOR when a
parent is present, else MAJOR exactly on a keyword hit, else MINOR. -/
theorem unmarkedStep_finalLevel (st : StepTracker) (tc : TestCase) (s sEnd : TestStep)
    (parentStepId : Option String) (t0 t1 : Int)
    (hmark : markerOfTitle s.title.toList = none) :
    (getStep
        (endStep (startStep st tc s parentStepId t0).1 sEnd
          (startStep st tc s parentStepId t0).2 t1)
        (startStep st tc s parentStepId t0).2).map (fun m => m.level)
      = some (if st.autoDetect = true ∧ st.durationThreshold < t1 - t0 then .major
              else if parentStepId.isSome then .minor
              else if majorKeywords.any (fun kw => hasSub kw (lowerChars s.title.toList))
                then .major
              else .minor) := by
  obtain ⟨cids, hc⟩ := getStep_startStep st tc s parentStepId t0
  rw [getStep_endStep _ sEnd _ t1 _ hc]
  have hAD : (startStep st tc s parentStepId t0).1.autoDetect = st.autoDetect := rfl
  have hTH : (startStep st tc s parentStepId t0).1.durationThreshold = st.durationThreshold := rfl
  rw [hAD, hTH, Option.map_some', endStepRecord_level]
  simp only
  have hcl : classifyStep s.title parentStepId =
      (if parentStepId.isSome then StepLevel.minor
       else if majorKeywords.any (fun kw => hasSub kw (lowerChars s.title.toList))
         then StepLevel.major
       else StepLevel.minor) := by
    unfold classifyStep
    rw [hmark]
  rw [hcl]

/-- C3 witness: a parentless long (0 → 2000) keyword-free step under the
default configuration ends MAJOR by the duration rule. -/
theorem unmarkedStep_finalLevel_witness :
    markerOfTitle ("Click button").toList = none ∧
    (getStep
        (endStep (startStep defaultTracker sampleCase (stepTitled "Click button") none 0).1
          (stepTitled "Click button")
          (startStep defaultTracker sampleCase (stepTitled "Click button") none 0).2 2000)
        (startStep defaultTracker sampleCase (stepTitled "Click button") none 0).2).map
      (fun m => m.level)
      = some (if (defaultTracker).autoDetect = true ∧ (defaultTracker).durationThreshold < 2000 - 0
              then .major
              else if (none : Option String).isSome then .minor
              else if majorKeywords.any
                  (fun kw => hasSub kw (lowerChars ("Click button" : String).toList))
                then .major
              else .minor) :=
  ⟨by decide,
   unmarkedStep_finalLevel defaultTracker sampleCase (stepTitled "Click button")
     (stepTitled "Click button") none 0 2000 (by decide)⟩

/-- C10 (confirmed): ending a step known to the registry sets its status
to `failed` exactly when the host reported an error for the step and to
`passed` otherwise; a finished step is never `pending`, `running` or
`skipped`. -/
theorem finishedStep_status (st : StepTracker) (s : TestStep) (stepId : String) (now : Int)
    (h : (getStep st stepId).isSome) :
    ((getStep (endStep st s stepId now) stepId).map (fun m => m.status)
        = some (if s.error.isSome then StepStatus.failed else StepStatus.passed)) ∧
    (∀ m2, getStep (endStep st s stepId now) stepId = some m2 →
      m2.status = .passed ∨ m2.status = .failed) := by
  obtain ⟨m, hm⟩ := Option.isSome_iff_exists.mp h
  have hend := getStep_endStep st s stepId now m hm
  constructor
  · rw [hend, Option.map_some', endStepRecord_status]
  · intro m2 hm2
    rw [hend] at hm2
    have : m2.status = if s.error.isSome then StepStatus.failed else StepStatus.passed := by
      have := Option.some.inj hm2
      rw [← this, endStepRecord_status]
    by_cases he : s.error.isSome
    · right
      rw [this, if_pos he]
    · left
      rw [this, if_neg he]

/-- C10 witness: ending a registered error-free step yields status
`passed`. -/
theorem finishedStep_status_witness :
    (getStep (startStep defaultTracker sampleCase (stepTitled "Click") none 0).1
        (startStep defaultTracker sampleCase (stepTitled "Click") none 0).2).isSome ∧
    ((getStep
        (endStep (startStep defaultTracker sampleCase (stepTitled "Click") none 0).1
          (stepTitled "Click")
          (startStep defaultTracker sampleCase (stepTitled "Click") none 0).2 7)
        (startStep defaultTracker sampleCase (stepTitled "Click") none 0).2).map
        (fun m => m.status)
      = some (if (stepTitled "Click").error.isSome then StepStatus.failed
              else StepStatus.passed)) :=
  ⟨by decide,
   (finishedStep_status (startStep defaultTracker sampleCase (stepTitled "Click") none 0).1
     (stepTitled "Click") (startStep defaultTracker sampleCase (stepTitled "Click") none 0).2 7
     (by decide)).1⟩

/-- C8 counterexample. The claim says a further `EndStep` on an already
finalized record leaves all registry state unchanged; on the code, ending
the same step again at a later clock rewrites `endTime` (5 → 9) and
`duration`, so the registry state changes. -/
theorem doubleEndStep_mutates :
    ((getStep
        (endStep (startStep defaultTracker sampleCase (stepTitled "Click") none 0).1
          (stepTitled "Click")
          (startStep defaultTracker sampleCase (stepTitled "Click") none 0).2 5)
        (startStep defaultTracker sampleCase (stepTitled "Click") none 0).2).map
        (fun m => m.endTime) = some (some 5)) ∧
    ((getStep
        (endStep
          (endStep (startStep defaultTracker sampleCase (stepTitled "Click") none 0).1
            (stepTitled "Click")
            (startStep defaultTracker sampleCase (stepTitled "Click") none 0).2 5)
          (stepTitled "Click")
          (startStep defaultTracker sampleCase (stepTitled "Click") none 0).2 9)
        (startStep defaultTracker sampleCase (stepTitled "Click") none 0).2).map
        (fun m => m.endTime) = some (some 9)) ∧
    (endStep
        (endStep (startStep defaultTracker sampleCase (stepTitled "Click") none 0).1
          (stepTitled "Click")
          (startStep defaultTracker sampleCase (stepTitled "Click") none 0).2 5)
        (stepTitled "Click")
        (startStep defaultTracker sampleCase (stepTitled "Click") none 0).2 9
      ≠ endStep (startStep defaultTracker sampleCase (stepTitled "Click") none 0).1
          (stepTitled "Click")
          (startStep defaultTracker sampleCase (stepTitled "Click") none 0).2 5) := by
  refine ⟨by decide, by decide, by decide⟩

/-- C8 (amended): `EndStep`/`EndTest` for an id unknown to the registry
leave the registry unchanged (and, being total functions, never throw);
a further `EndStep` on a known — possibly already finalized — record does
not throw either, but re-finalizes it, rewriting `endTime` to the new
clock value. -/
theorem endCalls_unknown_noop_known_refinalize (st : StepTracker) (s : TestStep)
    (stepId : String) (tc : TestCase) (r : TestResult) (now now2 now3 : Int) :
    (mapGet st.steps stepId = none → endStep st s stepId now = st) ∧
    (mapGet st.tests (getTestId tc) = none → endTest st tc r now2 = st) ∧
    (∀ m, mapGet st.steps stepId = some m →
      (getStep (endStep st s stepId now3) stepId).map (fun x => x.endTime)
        = some (some now3)) := by
  refine ⟨fun h => endStep_unknown st s stepId now h,
          fun h => endTest_unknown st tc r now2 h, ?_⟩
  intro m hm
  rw [getStep_endStep st s stepId now3 m hm, Option.map_some', endStepRecord_endTime]

/-- C8 witness: on an empty tracker both end calls are no-ops, and ending
a freshly registered step stamps the given end time. -/
theorem endCalls_unknown_noop_known_refinalize_witness :
    mapGet (StepTracker.make 1000 true).steps "nope" = none ∧
    mapGet (StepTracker.make 1000 true).tests (getTestId sampleCase) = none ∧
    endStep (StepTracker.make 1000 true) (stepTitled "x") "nope" 3 = StepTracker.make 1000 true ∧
    endTest (StepTracker.make 1000 true) sampleCase
        { status := "passed", duration := 1, error := none, attachments := [],
          stdout := some [], stderr := some [] } 4
      = StepTracker.make 1000 true ∧
    (getStep
        (endStep (startStep defaultTracker sampleCase (stepTitled "Click") none 0).1
          (stepTitled "x")
          (startStep defaultTracker sampleCase (stepTitled "Click") none 0).2 5)
        (startStep defaultTracker sampleCase (stepTitled "Click") none 0).2).map
      (fun x => x.endTime) = some (some 5) :=
  ⟨by decide, by decide,
   (endCalls_unknown_noop_known_refinalize (StepTracker.make 1000 true) (stepTitled "x") "nope"
     sampleCase
     { status := "passed", duration := 1, error := none, attachments := [],
       stdout := some [], stderr := some [] } 3 4 5).1 (by decide),
   (endCalls_unknown_noop_known_refinalize (StepTracker.make 1000 true) (stepTitled "x") "nope"
     sampleCase
     { status := "passed", duration := 1, error := none, attachments := [],
       stdout := some [], stderr := some [] } 3 4 5).2.1 (by decide),
   (endCalls_unknown_noop_known_refinalize
     (startStep defaultTracker sampleCase (stepTitled "Click") none 0).1 (stepTitled "x")
     (startStep defaultTracker sampleCase (stepTitled "Click") none 0).2
     sampleCase
     { status := "passed", duration := 1, error := none, attachments := [],
       stdout := some [], stderr := some [] } 3 4 5).2.2 _ rfl⟩

/-! ## Claim theorems: level monotonicity over operation sequences -/

theorem getStep_startStep_ne (st : StepTracker) (tc : TestCase) (s : TestStep)
    (parentStepId : Option String) (t0 : Int) (id : String) (m : StepMetadata)
    (hne : id ≠ getStepId tc s t0) (hm : mapGet st.steps id = some m) :
    ∃ cids, mapGet (startStep st tc s parentStepId t0).1.steps id
      = some { m with childIds := cids } := by
  unfold startStep
  simp only
  cases parentStepId with
  | none =>
    exact ⟨m.childIds, by rw [mapGet_mapSet_ne _ _ _ _ hne]; exact hm⟩
  | some p =>
    simp only
    split
    · next parent hp =>
      by_cases hpid : p = id
      · subst hpid
        rw [mapGet_mapSet_ne _ _ _ _ hne] at hp
        rw [hm] at hp
        obtain rfl : parent = m := by simpa using hp.symm
        exact ⟨parent.childIds ++ [getStepId tc s t0], mapGet_mapSet_self _ _ _⟩
      · refine ⟨m.childIds, ?_⟩
        rw [mapGet_mapSet_ne _ _ _ _ (fun hh => hpid hh.symm),
            mapGet_mapSet_ne _ _ _ _ hne]
        exact hm
    · next hp =>
      exact ⟨m.childIds, by rw [mapGet_mapSet_ne _ _ _ _ hne]; exact hm⟩

theorem applyTrackerOp_level (st : StepTracker) (op : TrackerOp) (id : String)
    (m : StepMetadata) (hf : opFresh st op = true) (hm : mapGet st.steps id = some m) :
    ∃ m', mapGet (applyTrackerOp st op).steps id = some m' ∧
      (m.level = .major → m'.level = .major) ∧
      (isStepEndOf id op = false → m'.level = m.level) := by
  cases op with
  | stepBegin tc s parentStepId now =>
    have hf' : (mapGet st.steps (getStepId tc s now)).isNone = true := hf
    have hfn : mapGet st.steps (getStepId tc s now) = none :=
      Option.isNone_iff_eq_none.mp hf'
    have hne : id ≠ getStepId tc s now := fun hh => by
      rw [hh, hfn] at hm
      exact Option.noConfusion hm
    obtain ⟨cids, hc⟩ := getStep_startStep_ne st tc s parentStepId now id m hne hm
    exact ⟨{ m with childIds := cids }, hc, fun h => h, fun _ => rfl⟩
  | stepEnd s stepId now =>
    by_cases hid : stepId = id
    · subst hid
      refine ⟨endStepRecord m s st.autoDetect st.durationThreshold now,
        getStep_endStep st s stepId now m hm, ?_, ?_⟩
      · intro hmaj
        rw [endStepRecord_level]
        by_cases hC : st.autoDetect = true ∧ st.durationThreshold < now - m.startTime
        · rw [if_pos hC]
        · rw [if_neg hC]
          exact hmaj
      · intro hfalse
        exfalso
        unfold isStepEndOf at hfalse
        simp at hfalse
    · refine ⟨m, ?_, fun h => h, fun _ => rfl⟩
      show mapGet (endStep st s stepId now).steps id = some m
      unfold endStep
      cases hq : mapGet st.steps stepId with
      | none => simp only [hq]; exact hm
      | some mm =>
        simp only [hq]
        rw [mapGet_mapSet_ne _ _ _ _ (fun hh => hid hh.symm)]
        exact hm

theorem trackerTrace_level (st : StepTracker) (ops : List TrackerOp) (id : String)
    (m : StepMetadata) (hfresh : traceFresh st ops = true)
    (hm : mapGet st.steps id = some m) :
    ∃ m', mapGet (runTracker st ops).steps id = some m' ∧
      (m.level = .major → m'.level = .major) ∧
      ((∀ op ∈ ops, isStepEndOf id op = false) → m'.level = m.level) := by
  induction ops generalizing st m with
  | nil =>
    exact ⟨m, hm, fun h => h, fun _ => rfl⟩
  | cons op rest ih =>
    rw [traceFresh, Bool.and_eq_true] at hfresh
    obtain ⟨hf1, hfr⟩ := hfresh
    obtain ⟨m1, hm1, hmono1, hpres1⟩ := applyTrackerOp_level st op id m hf1 hm
    obtain ⟨m', hm', hmono2, hpres2⟩ := ih (applyTrackerOp st op) m1 hfr hm1
    refine ⟨m', hm', fun h => hmono2 (hmono1 h), ?_⟩
    intro hall
    rw [hpres2 (fun o ho => hall o (List.mem_cons_of_mem _ ho)),
        hpres1 (hall op (List.mem_cons_self _ _))]

/-- C4 (confirmed): over any sequence of `BeginStep`/`EndStep` operations
whose `BeginStep`s get fresh ids (the source generates ids from test id,
step title and `Date.now()` precisely for that), a registered step's
level never falls back from MAJOR to MINOR, and a trace that contains no
`EndStep` for the step leaves its level unchanged — the only place a
level changes is the step's own `EndStep`. -/
theorem stepLevel_monotone (st : StepTracker) (ops : List TrackerOp) (id : String)
    (hfresh : traceFresh st ops = true) (hsome : (getStep st id).isSome) :
    ((getStep st id).map (fun m => m.level) = some .major →
      (getStep (runTracker st ops) id).map (fun m => m.level) = some .major) ∧
    ((∀ op ∈ ops, isStepEndOf id op = false) →
      (getStep (runTracker st ops) id).map (fun m => m.level)
        = (getStep st id).map (fun m => m.level)) := by
  obtain ⟨m, hm⟩ := Option.isSome_iff_exists.mp hsome
  obtain ⟨m', hm', hmono, hpres⟩ := trackerTrace_level st ops id m hfresh hm
  unfold getStep at hm ⊢
  constructor
  · intro hmaj
    rw [hm, Option.map_some'] at hmaj
    rw [hm', Option.map_some', hmono (Option.some.inj hmaj)]
  · intro hall
    rw [hm, hm', Option.map_some', Option.map_some', hpres hall]

/-- C4 witness: a `[MAJOR] pay` step stays MAJOR across a trace with a
fresh `BeginStep` for another step and its own `EndStep`. -/
theorem stepLevel_monotone_witness :
    traceFresh (startStep defaultTracker sampleCase (stepTitled "[MAJOR] pay") none 0).1
        [TrackerOp.stepBegin sampleCase (stepTitled "other") none 1,
         TrackerOp.stepEnd (stepTitled "x")
           (startStep defaultTracker sampleCase (stepTitled "[MAJOR] pay") none 0).2 2] = true ∧
    (getStep (startStep defaultTracker sampleCase (stepTitled "[MAJOR] pay") none 0).1
        (startStep defaultTracker sampleCase (stepTitled "[MAJOR] pay") none 0).2).isSome ∧
    (getStep (startStep defaultTracker sampleCase (stepTitled "[MAJOR] pay") none 0).1
        (startStep defaultTracker sampleCase (stepTitled "[MAJOR] pay") none 0).2).map
      (fun m => m.level) = some .major ∧
    (getStep
        (runTracker (startStep defaultTracker sampleCase (stepTitled "[MAJOR] pay") none 0).1
          [TrackerOp.stepBegin sampleCase (stepTitled "other") none 1,
           TrackerOp.stepEnd (stepTitled "x")
             (startStep defaultTracker sampleCase (stepTitled "[MAJOR] pay") none 0).2 2])
        (startStep defaultTracker sampleCase (stepTitled "[MAJOR] pay") none 0).2).map
      (fun m => m.level) = some .major :=
  ⟨by decide, by decide, by decide,
   (stepLevel_monotone (startStep defaultTracker sampleCase (stepTitled "[MAJOR] pay") none 0).1
     [TrackerOp.stepBegin sampleCase (stepTitled "other") none 1,
      TrackerOp.stepEnd (stepTitled "x")
        (startStep defaultTracker sampleCase (stepTitled "[MAJOR] pay") none 0).2 2]
     (startStep defaultTracker sampleCase (stepTitled "[MAJOR] pay") none 0).2
     (by decide) (by decide)).1 (by decide)⟩

/-! ## Claim theorems: buffer capacity -/

theorem scanOldestPassed_index_lt (l : List BufferEntry) :
    ∀ (i : Nat) (acc : Option (Nat × Int)),
      (∀ j ts, acc = some (j, ts) → j < i) →
      ∀ j ts, scanOldestPassed l i acc = some (j, ts) → j < i + l.length := by
  induction l with
  | nil =>
    intro i acc hacc j ts h
    simp only [scanOldestPassed] at h
    exact Nat.lt_of_lt_of_le (hacc j ts h) (Nat.le_add_right _ _)
  | cons e rest ih =>
    intro i acc hacc j ts h
    simp only [scanOldestPassed] at h
    have hstep : j < (i + 1) + rest.length := by
      by_cases hc : olderPassed e acc = true
      · rw [if_pos hc] at h
        refine ih (i + 1) (some (i, e.timestamp)) ?_ j ts h
        intro j0 ts0 hj0
        have h2 : i = j0 := congrArg Prod.fst (Option.some.inj hj0)
        omega
      · rw [if_neg hc] at h
        refine ih (i + 1) acc ?_ j ts h
        intro j0 ts0 hj0
        exact Nat.lt_succ_of_lt (hacc j0 ts0 hj0)
    rw [List.length_cons]
    omega

theorem length_removeOldestPassedTest (b : List BufferEntry) (hb : b ≠ []) :
    (removeOldestPassedTest b).length = b.length - 1 := by
  unfold removeOldestPassedTest
  cases hscan : scanOldestPassed b 0 none with
  | none =>
    cases b with
    | nil => exact absurd rfl hb
    | cons e rest => simp
  | some p =>
    obtain ⟨i, ts⟩ := p
    have hi : i < b.length := by
      have := scanOldestPassed_index_lt b 0 none (by intro j ts h; exact Option.noConfusion h)
        i ts hscan
      simpa using this
    simp only
    exact List.length_eraseIdx_of_lt hi

theorem addEntry_preserves_sizes (buf : OutputBuffer) (key : String) (e : BufferEntry)
    (hmax : 1 ≤ buf.maxBufferSize) (hinv : sizesWithinCapacity buf) :
    sizesWithinCapacity (addEntry buf key e) := by
  intro p hp
  have hmb : (addEntry buf key e).maxBufferSize = buf.maxBufferSize := rfl
  rw [hmb]
  unfold addEntry at hp
  simp only at hp
  rcases mem_mapSet hp with hpe | hpm
  · subst hpe
    simp only
    have hbase : (((mapGet buf.buffers key).getD []).length : Int) ≤ buf.maxBufferSize := by
      cases hg : mapGet buf.buffers key with
      | none =>
        simp only [hg, Option.getD_none, List.length_nil]
        omega
      | some b =>
        simp only [hg, Option.getD_some]
        exact hinv (key, b) (mapGet_mem hg)
    by_cases hfull : decide (((((mapGet buf.buffers key).getD []).length : Int))
        ≥ buf.maxBufferSize) = true
    · rw [if_pos hfull]
      have hge : (((mapGet buf.buffers key).getD []).length : Int) ≥ buf.maxBufferSize :=
        of_decide_eq_true hfull
      have hne : ((mapGet buf.buffers key).getD []) ≠ [] := by
        intro hnil
        rw [hnil] at hge
        simp at hge
        omega
      have hlen := length_removeOldestPassedTest _ hne
      rw [List.length_append, hlen]
      have hpos : 1 ≤ ((mapGet buf.buffers key).getD []).length := by
        cases hq : ((mapGet buf.buffers key).getD []) with
        | nil => exact absurd hq hne
        | cons x xs => simp
      simp only [List.length_cons, List.length_nil]
      omega
    · rw [if_neg hfull]
      have hlt : ¬ ((((mapGet buf.buffers key).getD []).length : Int) ≥ buf.maxBufferSize) :=
        fun hh => hfull (decide_eq_true hh)
      rw [List.length_append]
      simp only [List.length_cons, List.length_nil]
      omega
  · exact hinv p hpm

/-- C5 counterexample. The claim quantifies over every configured
capacity; with `maxBufferSize = 0` a single `addTest` leaves one entry in
the worker's buffer, so `len(buffer) ≤ capacity` fails after the insert
(the eviction branch cannot make room in an empty buffer before the
push). -/
theorem capacityZero_overflows :
    ¬ sizesWithinCapacity
        (runBuffer (OutputBuffer.make 0 true)
          [BufOp.addT (sampleTest "t" .passed 0) none 1]) := by
  decide

/-- C5 (amended): for every configured capacity of at least one entry,
after any sequence of `addTest`/`addStep` calls starting from a fresh
buffer, every worker's buffer holds at most `capacity` entries. -/
theorem bufferSizes_withinCapacity (cap : Int) (compress : Bool) (ops : List BufOp)
    (hcap : 1 ≤ cap) :
    sizesWithinCapacity (runBuffer (OutputBuffer.make cap compress) ops) := by
  have general : ∀ (ops : List BufOp) (buf : OutputBuffer), 1 ≤ buf.maxBufferSize →
      sizesWithinCapacity buf → sizesWithinCapacity (runBuffer buf ops) := by
    intro ops
    induction ops with
    | nil => exact fun buf _ h2 => h2
    | cons op rest ih =>
      intro buf h1 h2
      have hstep : sizesWithinCapacity (applyBufOp buf op) := by
        cases op with
        | addT t w now => exact addEntry_preserves_sizes buf _ _ h1 h2
        | addS s w now => exact addEntry_preserves_sizes buf _ _ h1 h2
      have hmax : (applyBufOp buf op).maxBufferSize = buf.maxBufferSize := by
        cases op <;> rfl
      exact ih (applyBufOp buf op) (hmax ▸ h1) hstep
  refine general ops _ hcap ?_
  intro p hp
  simp [OutputBuffer.make] at hp

/-- C5 witness: capacity 2 with three adds stays within bounds. -/
theorem bufferSizes_withinCapacity_witness :
    (1 : Int) ≤ 2 ∧
    sizesWithinCapacity (runBuffer (OutputBuffer.make 2 true)
      [BufOp.addT (sampleTest "a" .passed 0) none 1,
       BufOp.addT (sampleTest "b" .passed 0) none 2,
       BufOp.addT (sampleTest "c" .passed 0) none 3]) :=
  ⟨by decide,
   bufferSizes_withinCapacity 2 true
     [BufOp.addT (sampleTest "a" .passed 0) none 1,
      BufOp.addT (sampleTest "b" .passed 0) none 2,
      BufOp.addT (sampleTest "c" .passed 0) none 3] (by decide)⟩

/-! ## Claim theorems: eviction policy -/

theorem scanOldestPassed_none_spec (l : List BufferEntry) :
    ∀ (i : Nat) (acc : Option (Nat × Int)), scanOldestPassed l i acc = none →
      acc = none ∧ ∀ e ∈ l, isPassedTestEntry e = false := by
  induction l with
  | nil =>
    intro i acc h
    simp only [scanOldestPassed] at h
    exact ⟨h, by intro e he; simp at he⟩
  | cons e rest ih =>
    intro i acc h
    simp only [scanOldestPassed] at h
    by_cases hc : olderPassed e acc = true
    · rw [if_pos hc] at h
      obtain ⟨hnone, _⟩ := ih _ _ h
      exact Option.noConfusion hnone
    · rw [if_neg hc] at h
      obtain ⟨hacc, hall⟩ := ih _ _ h
      subst hacc
      refine ⟨rfl, ?_⟩
      intro e2 he2
      rcases List.mem_cons.mp he2 with rfl | hmem
      · simp [olderPassed] at hc
        exact hc
      · exact hall e2 hmem

theorem scanOldestPassed_some_spec (l : List BufferEntry) :
    ∀ (i : Nat) (acc : Option (Nat × Int)) (j : Nat) (ts : Int),
      scanOldestPassed l i acc = some (j, ts) →
      ((acc = some (j, ts)) ∨
        (∃ k, k < l.length ∧ j = i + k ∧
          isPassedTestEntry (l.getD k blankEntry) = true ∧
          (l.getD k blankEntry).timestamp = ts)) ∧
      (∀ e ∈ l, isPassedTestEntry e = true → ts ≤ e.timestamp) ∧
      (∀ j0 ts0, acc = some (j0, ts0) → ts ≤ ts0) := by
  induction l with
  | nil =>
    intro i acc j ts h
    simp only [scanOldestPassed] at h
    refine ⟨Or.inl h, by intro e he; simp at he, ?_⟩
    intro j0 ts0 h0
    rw [h] at h0
    have h2 : ts = ts0 := congrArg Prod.snd (Option.some.inj h0)
    omega
  | cons e rest ih =>
    intro i acc j ts h
    simp only [scanOldestPassed] at h
    by_cases hc : olderPassed e acc = true
    · rw [if_pos hc] at h
      obtain ⟨hmem, hmin, hacc⟩ := ih (i + 1) (some (i, e.timestamp)) j ts h
      have hpe : isPassedTestEntry e = true := by
        unfold olderPassed at hc
        exact (Bool.and_eq_true _ _ ▸ hc).1
      refine ⟨?_, ?_, ?_⟩
      · rcases hmem with heq | ⟨k, hk, hjk, hpass, hts⟩
        · right
          have h1 : i = j := congrArg Prod.fst (Option.some.inj heq)
          have h2 : e.timestamp = ts := congrArg Prod.snd (Option.some.inj heq)
          refine ⟨0, by simp, by omega, ?_, ?_⟩
          · rw [List.getD_cons_zero]
            exact hpe
          · rw [List.getD_cons_zero]
            exact h2
        · right
          refine ⟨k + 1, by simp only [List.length_cons]; omega, by omega, ?_, ?_⟩
          · rw [List.getD_cons_succ]
            exact hpass
          · rw [List.getD_cons_succ]
            exact hts
      · intro e2 he2 hpe2
        rcases List.mem_cons.mp he2 with rfl | hmem2
        · exact hacc i e2.timestamp rfl
        · exact hmin e2 hmem2 hpe2
      · intro j0 ts0 h0
        have he_ts := hacc i e.timestamp rfl
        have hlt : e.timestamp < ts0 := by
          rw [h0] at hc
          unfold olderPassed at hc
          have := (Bool.and_eq_true _ _ ▸ hc).2
          exact of_decide_eq_true this
        omega
    · rw [if_neg hc] at h
      obtain ⟨hmem, hmin, hacc⟩ := ih (i + 1) acc j ts h
      refine ⟨?_, ?_, hacc⟩
      · rcases hmem with heq | ⟨k, hk, hjk, hpass, hts⟩
        · exact Or.inl heq
        · right
          refine ⟨k + 1, by simp only [List.length_cons]; omega, by omega, ?_, ?_⟩
          · rw [List.getD_cons_succ]
            exact hpass
          · rw [List.getD_cons_succ]
            exact hts
      · intro e2 he2 hpe2
        rcases List.mem_cons.mp he2 with rfl | hmem2
        · cases hq : acc with
          | none =>
            exfalso
            apply hc
            rw [hq]
            simp [olderPassed, hpe2]
          | some p =>
            obtain ⟨j0, ts0⟩ := p
            have h1 := hacc j0 ts0 hq
            have h2 : ¬ (e2.timestamp < ts0) := by
              intro hlt
              apply hc
              rw [hq]
              simp [olderPassed, hpe2, hlt]
            omega
        · exact hmin e2 hmem2 hpe2

theorem countP_eraseIdx_of_false {α : Type} (p : α → Bool) (d : α) :
    ∀ (l : List α) (j : Nat), j < l.length → p (l.getD j d) = false →
      (l.eraseIdx j).countP p = l.countP p := by
  intro l
  induction l with
  | nil =>
    intro j hj
    simp at hj
  | cons x xs ih =>
    intro j hj hp
    cases j with
    | zero =>
      rw [List.getD_cons_zero] at hp
      simp only [List.eraseIdx]
      rw [List.countP_cons, hp]
      simp
    | succ k =>
      rw [List.getD_cons_succ] at hp
      simp only [List.eraseIdx]
      rw [List.countP_cons, List.countP_cons,
          ih k (by simpa using hj) hp]

theorem isPassedTestEntry_not_failed (e : BufferEntry)
    (h : isPassedTestEntry e = true) : isFailedTestEntry e = false := by
  unfold isPassedTestEntry at h
  unfold isFailedTestEntry
  cases hd : e.data with
  | step s => rfl
  | test t =>
    rw [hd] at h
    have h' : decide (t.status = StepStatus.passed) = true := h
    have ht := of_decide_eq_true h'
    show decide (t.status = StepStatus.failed) = false
    rw [ht]
    decide

/-- C6 counterexample. Before the add the full (capacity 2) buffer holds a
passed *step* entry inserted at time 1 and a passed *test* entry `X`
inserted at time 2. The oldest entry whose record status is `passed` is
the step entry; the claim says it is the one evicted. The code evicts the
younger test `X` instead — the eviction scan only ever considers entries
of kind test — so after adding `Y` the step entry is still there and `X`
is gone. -/
theorem evictionSkipsOlderPassedStep :
    (mapGet evictionProbe.buffers "default"
       = some [{ data := .step (sampleStepMeta "s1"), timestamp := 1, workerId := none },
               { data := .test (sampleTest "X" .passed 10), timestamp := 2, workerId := none }]) ∧
    (sampleStepMeta "s1").status = .passed ∧
    (mapGet (addTest evictionProbe (sampleTest "Y" .passed 11) none 3).buffers "default"
       = some [{ data := .step (sampleStepMeta "s1"), timestamp := 1, workerId := none },
               { data := .test (sampleTest "Y" .passed 11), timestamp := 3, workerId := none }]) := by
  refine ⟨by decide, by decide, by decide⟩

/-- C6 (amended): on a full buffer the eviction scan returns the position
of the oldest *test* entry whose status is `passed` (oldest by insertion
timestamp; only test entries are candidates), that entry is the one
removed — so the count of failed-test entries is untouched — and when no
passed test entry exists at all, the first (oldest) entry is shifted off
regardless of status. Consequently a buffered failed test is never
evicted while a passed test candidate exists in the buffer. -/
theorem evictionPolicy (b : List BufferEntry) :
    (∀ j ts, scanOldestPassed b 0 none = some (j, ts) →
      j < b.length ∧
      isPassedTestEntry (b.getD j blankEntry) = true ∧
      (b.getD j blankEntry).timestamp = ts ∧
      (∀ e ∈ b, isPassedTestEntry e = true → ts ≤ e.timestamp) ∧
      removeOldestPassedTest b = b.eraseIdx j ∧
      (b.eraseIdx j).countP isFailedTestEntry = b.countP isFailedTestEntry) ∧
    (scanOldestPassed b 0 none = none →
      (∀ e ∈ b, isPassedTestEntry e = false) ∧ removeOldestPassedTest b = b.tail) ∧
    ((∃ e ∈ b, isPassedTestEntry e = true) → (scanOldestPassed b 0 none).isSome) := by
  refine ⟨?_, ?_, ?_⟩
  · intro j ts hscan
    obtain ⟨hmem, hmin, _⟩ := scanOldestPassed_some_spec b 0 none j ts hscan
    rcases hmem with heq | ⟨k, hk, hjk, hpass, hts⟩
    · exact Option.noConfusion heq
    · obtain rfl : j = k := by omega
      have hjb : j < b.length := hk
      refine ⟨hjb, hpass, hts, hmin, ?_, ?_⟩
      · unfold removeOldestPassedTest
        rw [hscan]
      · exact countP_eraseIdx_of_false isFailedTestEntry blankEntry b j hjb
          (isPassedTestEntry_not_failed _ hpass)
  · intro hscan
    obtain ⟨_, hall⟩ := scanOldestPassed_none_spec b 0 none hscan
    refine ⟨hall, ?_⟩
    unfold removeOldestPassedTest
    rw [hscan]
  · intro ⟨e, he, hpe⟩
    cases hscan : scanOldestPassed b 0 none with
    | some p => rfl
    | none =>
      obtain ⟨_, hall⟩ := scanOldestPassed_none_spec b 0 none hscan
      rw [hall e he] at hpe
      exact Bool.noConfusion hpe

/-- C6 witness: on the two-entry probe buffer the scan picks the passed
test at index 1 (timestamp 2), eviction erases exactly that index, and
the failed-test count is unchanged. -/
theorem evictionPolicy_witness :
    scanOldestPassed
        [{ data := .step (sampleStepMeta "s1"), timestamp := 1, workerId := none },
         { data := .test (sampleTest "X" .passed 10), timestamp := 2, workerId := none }] 0 none
      = some (1, 2) ∧
    removeOldestPassedTest
        [{ data := .step (sampleStepMeta "s1"), timestamp := 1, workerId := none },
         { data := .test (sampleTest "X" .passed 10), timestamp := 2, workerId := none }]
      = List.eraseIdx
          [{ data := .step (sampleStepMeta "s1"), timestamp := 1, workerId := none },
           { data := .test (sampleTest "X" .passed 10), timestamp := 2, workerId := none }] 1 :=
  ⟨by decide,
   ((evictionPolicy
       [{ data := .step (sampleStepMeta "s1"), timestamp := 1, workerId := none },
        { data := .test (sampleTest "X" .passed 10), timestamp := 2, workerId := none }]).1
     1 2 (by decide)).2.2.2.2.1⟩

/-! ## Claim theorems: worker merge ordering -/

theorem insertByStartTime_perm (x : TestMetadata) (l : List TestMetadata) :
    List.Perm (insertByStartTime x l) (x :: l) := by
  induction l with
  | nil => exact List.Perm.refl _
  | cons y ys ih =>
    rw [insertByStartTime]
    by_cases h : decide (y.startTime < x.startTime) = true
    · rw [if_pos h]
      exact (ih.cons y).trans (List.Perm.swap x y ys)
    · rw [if_neg h]

theorem insertByStartTime_sorted (x : TestMetadata) (l : List TestMetadata)
    (h : l.Pairwise (fun a b => a.startTime ≤ b.startTime)) :
    (insertByStartTime x l).Pairwise (fun a b => a.startTime ≤ b.startTime) := by
  induction l with
  | nil => simp [insertByStartTime]
  | cons y ys ih =>
    rw [insertByStartTime]
    obtain ⟨hy, hys⟩ := List.pairwise_cons.mp h
    by_cases hlt : decide (y.startTime < x.startTime) = true
    · rw [if_pos hlt]
      refine List.pairwise_cons.mpr ⟨?_, ih hys⟩
      intro z hz
      have hz' := (insertByStartTime_perm x ys).mem_iff.mp hz
      rcases List.mem_cons.mp hz' with rfl | hzys
      · exact le_of_lt (of_decide_eq_true hlt)
      · exact hy z hzys
    · rw [if_neg hlt]
      have hxy : x.startTime ≤ y.startTime := by
        have h2 : ¬ (y.startTime < x.startTime) := fun hh => hlt (decide_eq_true hh)
        omega
      refine List.pairwise_cons.mpr ⟨?_, h⟩
      intro z hz
      rcases List.mem_cons.mp hz with rfl | hzys
      · exact hxy
      · exact le_trans hxy (hy z hzys)

theorem filter_insertByStartTime (x : TestMetadata) (l : List TestMetadata) (ts : Int) :
    (insertByStartTime x l).filter (fun e => decide (e.startTime = ts))
      = if x.startTime = ts
        then x :: l.filter (fun e => decide (e.startTime = ts))
        else l.filter (fun e => decide (e.startTime = ts)) := by
  induction l with
  | nil =>
    rw [insertByStartTime]
    by_cases h : x.startTime = ts
    · simp [List.filter, h]
    · simp [List.filter, h]
  | cons y ys ih =>
    rw [insertByStartTime]
    by_cases hlt : decide (y.startTime < x.startTime) = true
    · rw [if_pos hlt]
      have hylt := of_decide_eq_true hlt
      by_cases hx : x.startTime = ts
      · have hpy : (y.startTime = ts) = False := by
          simp only [eq_iff_iff, iff_false]
          intro hh
          omega
        simp [List.filter_cons, hpy, hx, ih]
      · simp [List.filter_cons, hx, ih]
    · rw [if_neg hlt]
      by_cases hx : x.startTime = ts
      · simp [List.filter_cons, hx]
      · simp [List.filter_cons, hx]

theorem sortByStartTime_perm (l : List TestMetadata) : List.Perm (sortByStartTime l) l := by
  induction l with
  | nil => exact List.Perm.refl _
  | cons x xs ih =>
    rw [sortByStartTime]
    exact (insertByStartTime_perm x (sortByStartTime xs)).trans (ih.cons x)

theorem sortByStartTime_sorted (l : List TestMetadata) :
    (sortByStartTime l).Pairwise (fun a b => a.startTime ≤ b.startTime) := by
  induction l with
  | nil => simp [sortByStartTime]
  | cons x xs ih =>
    rw [sortByStartTime]
    exact insertByStartTime_sorted x _ ih

theorem filter_sortByStartTime (l : List TestMetadata) (ts : Int) :
    (sortByStartTime l).filter (fun e => decide (e.startTime = ts))
      = l.filter (fun e => decide (e.startTime = ts)) := by
  induction l with
  | nil => rfl
  | cons x xs ih =>
    rw [sortByStartTime, filter_insertByStartTime, List.filter_cons]
    by_cases hx : x.startTime = ts
    · rw [if_pos hx, ih, decide_eq_true hx]
      simp
    · rw [if_neg hx, ih, decide_eq_false hx]
      simp

/-- C7 counterexample. Tests `X`, `Y`, `Z` all share `startTime = 100`
and are added in the order `X`, `Y`, `Z`, with `X`, `Z` on worker `b` and
`Y` on worker `a`. The claim says equal-`startTime` tests keep their
relative insertion order (`X`, `Y`, `Z`); the code flattens per worker
first (`X`, `Z`, `Y`) and the stable sort keeps that order, so `Z` comes
out before `Y` even though `Y` was inserted first. -/
theorem mergeBreaksInsertionOrderTies :
    (mergeWorkerBuffers mergeProbe).map (fun t => t.id) = ["X", "Z", "Y"] ∧
    (["X", "Z", "Y"] : List String) ≠ ["X", "Y", "Z"] := by
  refine ⟨by decide, by decide⟩

/-- C7 (amended): `mergeWorkerBuffers` returns the buffered tests sorted
ascending by `startTime`, as a permutation of the flattened per-worker
buffers (workers in first-use order, entries in per-worker insertion
order), and the sort is stable with respect to that flattened order: for
every start time the tests carrying it keep their relative flattened
order. Ties inside one worker therefore keep their insertion order; ties
across workers follow the flattened worker order, not the global `Add`
order. Tests with start times 1000, 2000, 1500 come out ordered 1000,
1500, 2000 under any assignment of the three adds to workers. -/
theorem mergeWorkerBuffers_ordering :
    (∀ buf : OutputBuffer,
      (mergeWorkerBuffers buf).Pairwise (fun a b => a.startTime ≤ b.startTime) ∧
      List.Perm (mergeWorkerBuffers buf) (getAllTests buf) ∧
      (∀ ts : Int, (mergeWorkerBuffers buf).filter (fun e => decide (e.startTime = ts))
         = (getAllTests buf).filter (fun e => decide (e.startTime = ts)))) ∧
    (∀ w1 w2 w3 : Option String,
      mergeWorkerBuffers
        (addTest (addTest (addTest (OutputBuffer.make 1000 true)
          (sampleTest "A" .passed 1000) w1 1) (sampleTest "B" .passed 2000) w2 2)
          (sampleTest "C" .passed 1500) w3 3)
        = [sampleTest "A" .passed 1000, sampleTest "C" .passed 1500,
           sampleTest "B" .passed 2000]) := by
  constructor
  · intro buf
    exact ⟨sortByStartTime_sorted _, sortByStartTime_perm _,
           fun ts => filter_sortByStartTime _ ts⟩
  · intro w1 w2 w3
    by_cases h21 : w2.getD "default" = w1.getD "default"
    · by_cases h31 : w3.getD "default" = w1.getD "default"
      · simp [mergeWorkerBuffers, getAllTests, testsOfBuffer, addTest, addEntry,
              mapGet, mapSet, OutputBuffer.make, h21, h31]
        decide
      · simp [mergeWorkerBuffers, getAllTests, testsOfBuffer, addTest, addEntry,
              mapGet, mapSet, OutputBuffer.make, h21, h31, Ne.symm h31]
        decide
    · by_cases h31 : w3.getD "default" = w1.getD "default"
      · by_cases h32 : w3.getD "default" = w2.getD "default"
        · exact absurd (h32.symm.trans h31) h21
        · simp [mergeWorkerBuffers, getAllTests, testsOfBuffer, addTest, addEntry,
                mapGet, mapSet, OutputBuffer.make, h21, h31, h32,
                Ne.symm h21, Ne.symm h32]
          decide
      · by_cases h32 : w3.getD "default" = w2.getD "default"
        · simp [mergeWorkerBuffers, getAllTests, testsOfBuffer, addTest, addEntry,
                mapGet, mapSet, OutputBuffer.make, h21, h31, h32,
                Ne.symm h21, Ne.symm h31]
          decide
        · simp [mergeWorkerBuffers, getAllTests, testsOfBuffer, addTest, addEntry,
                mapGet, mapSet, OutputBuffer.make, h21, h31, h32,
                Ne.symm h21, Ne.symm h31, Ne.symm h32]
          decide

/-! ## Claim theorems: run-end draw -/

/-- C9 counterexample. The claim says the run-end draw is idempotent —
two invocations with the same final test list produce exactly one summary
draw. `onEnd` has no idempotence guard: invoked twice on the progressive
formatter it emits the summary block both times, two draws rather than
one. -/
theorem flushTwice_drawsTwice :
    ((formatterOnEnd fmtProbe [sampleTest "t" .passed 0]).2
        ++ (formatterOnEnd (formatterOnEnd fmtProbe [sampleTest "t" .passed 0]).1
             [sampleTest "t" .passed 0]).2).countP isSummaryFrame = 2 ∧
    (2 : Nat) ≠ 1 := by
  refine ⟨by decide, by decide⟩

/-- C9 (amended): every invocation of `onEnd` cancels the pending render
timer (in progressive mode) and performs exactly one synchronous summary
draw; a second invocation with the same test list draws the summary
again, so two calls produce two draws — the run-end draw is not
idempotent. -/
theorem flush_drawsOncePerCall (st : ConsoleFormatterState) (tests : List TestMetadata) :
    ((formatterOnEnd st tests).2.countP isSummaryFrame = 1) ∧
    (st.useProgressiveMode = true → (formatterOnEnd st tests).1.timerPending = false) ∧
    ((formatterOnEnd (formatterOnEnd st tests).1 tests).2.countP isSummaryFrame = 1) := by
  by_cases hp : st.useProgressiveMode = true
  · simp [formatterOnEnd, isSummaryFrame, hp]
  · simp [formatterOnEnd, isSummaryFrame, hp]

/-- C9 witness: on the progressive formatter with a pending timer, one
call draws once and cancels the timer. -/
theorem flush_drawsOncePerCall_witness :
    fmtProbe.useProgressiveMode = true ∧
    ((formatterOnEnd fmtProbe [sampleTest "t" .passed 0]).2.countP isSummaryFrame = 1) ∧
    ((formatterOnEnd fmtProbe [sampleTest "t" .passed 0]).1.timerPending = false) :=
  ⟨by decide,
   (flush_drawsOncePerCall fmtProbe [sampleTest "t" .passed 0]).1,
   (flush_drawsOncePerCall fmtProbe [sampleTest "t" .passed 0]).2.1 (by decide)⟩
